import Mathlib

/-!
Verification of the goa-router dispatch layer (router.go) against its
natural-language specification.

The router code (router.go) is embedded statement-by-statement as pure Lean
functions.  The trie file (tree.go) is not part of the sources at hand, so
the trie operations it provides (addRoute, getValue, findCaseInsensitivePath,
CleanPath) are modelled from the specification text; each such definition
carries a doc comment starting with "Modelled from the spec".

Strings are manipulated through their character lists so that every
definition is executable and kernel-reducible.
-/

set_option autoImplicit false

namespace GoaRouter

/-! ## Path helpers -/

/-- Splits a character list on the slash character, mirroring the
segment-wise view of a URL path (the result always has at least one,
possibly empty, segment, exactly like splitting a string on a separator). -/
def splitOnSlash : List Char → List (List Char)
  | [] => [[]]
  | c :: rest =>
    match splitOnSlash rest with
    | seg :: segs => if c = '/' then [] :: seg :: segs else (c :: seg) :: segs
    | [] => [[]]

/-- Joins segments back with slashes; inverse direction of splitOnSlash. -/
def joinSegs : List (List Char) → List Char
  | [] => []
  | [seg] => seg
  | seg :: segs => seg ++ '/' :: joinSegs segs

/-- Path with the final slash toggled, as computed inline in Handle
(router.go lines 241-247): drop the final slash when the path is longer
than one byte and ends in a slash, otherwise append a slash. -/
def toggleSlash (p : String) : String :=
  if p.length > 1 ∧ p.toList.getLast? = some '/' then
    String.mk p.toList.dropLast
  else
    p ++ "/"

/-- Modelled from the spec (section 4.3): tree.go's CleanPath is not in the
sources.  Collapses repeated slashes, resolves a dot segment to a no-op and
a dot-dot segment by popping the previous segment, keeps a leading slash,
and preserves a trailing slash when any segment survives. -/
def CleanPath (p : String) : String :=
  let segs := splitOnSlash p.toList
  let stack := segs.foldl
    (fun acc seg =>
      if seg = [] ∨ seg = ['.'] then acc
      else if seg = ['.', '.'] then acc.dropLast
      else acc ++ [seg]) []
  let base := '/' :: joinSegs stack
  if p.toList.getLast? = some '/' ∧ stack ≠ [] then
    String.mk (base ++ ['/'])
  else
    String.mk base

/-- Lower-cases every character of a string (ASCII case folding, as used by
the case-insensitive path recovery). -/
def lowerStr (s : String) : String :=
  String.mk (s.toList.map Char.toLower)

/-! ## Trie model

The per-method routing trie lives in tree.go, which is not among the
sources; following the specification (sections 3 and 4.2) it is modelled
extensionally as the list of registered (pattern, handler) routes, handlers
being identified by numeric ids.  Matching behaviour is taken from the
spec's description of lookup. -/

/-- Routing trie for one method, modelled as its list of registered routes. -/
abbrev Trie := List (String × Nat)

/-- Captured wildcard parameters, in pattern order. -/
abbrev Params := List (String × String)

/-- Modelled from the spec (section 4.2): segment-wise pattern match.  A
static segment matches byte-for-byte, a param segment (leading colon)
captures exactly one non-empty path segment, a catch-all segment (leading
star) must be final and captures the remainder of the path including
slashes. -/
def matchSegs : List (List Char) → List (List Char) → Option Params
  | [], [] => some []
  | pseg :: ps, s :: ss =>
    match pseg with
    | '*' :: name =>
      if ps = [] then some [(String.mk name, String.mk (joinSegs (s :: ss)))]
      else none
    | ':' :: name =>
      if s ≠ [] then
        (matchSegs ps ss).map (fun prs => (String.mk name, String.mk s) :: prs)
      else none
    | _ => if pseg = s then matchSegs ps ss else none
  | _, _ => none

/-- Does a pattern contain a wildcard segment marker. -/
def hasWildcard (p : String) : Bool :=
  p.toList.any (fun c => c = ':' ∨ c = '*')

/-- Modelled from the spec (section 4.2): route lookup.  A static route equal
to the path wins, otherwise the first registered route whose segments match
the path (wildcards included) is taken. -/
def lookupRoute (t : Trie) (path : String) : Option (Nat × Params) :=
  match t.find? (fun rt => ¬hasWildcard rt.1 ∧ rt.1 = path) with
  | some rt => some (rt.2, [])
  | none =>
    match t.findSome? (fun rt =>
      (matchSegs (splitOnSlash rt.1.toList) (splitOnSlash path.toList)).map
        (fun prs => (rt.2, prs))) with
    | some r => some r
    | none => none

/-- Modelled from the spec (sections 4.2): getValue returns the bound
handler and its captured params; when the exact path fails, the
trailing-slash-recommended flag reports whether a route is registered at
the path with the final slash toggled. -/
def getValue (t : Trie) (path : String) : Option Nat × Params × Bool :=
  match lookupRoute t path with
  | some (h, ps) => (some h, ps, false)
  | none => (none, [], (lookupRoute t (toggleSlash path)).isSome)

/-- Modelled from the spec (section 4.3): case-insensitive recovery over
the cleaned path, returning the registered pattern in its canonical stored
casing; when the flag permits, a match for the path with the final slash
toggled is also accepted.  Wildcard routes are not recovered by the model. -/
def findCaseInsensitivePath (t : Trie) (cleanedPath : String)
    (fixTrailingSlash : Bool) : Option String :=
  match t.find? (fun rt => lowerStr rt.1 = lowerStr cleanedPath) with
  | some rt => some rt.1
  | none =>
    if fixTrailingSlash then
      (t.find? (fun rt => lowerStr rt.1 = lowerStr (toggleSlash cleanedPath))).map
        (fun rt => rt.1)
    else none

/-- Registration-time failures.  The index fault stands for the runtime
out-of-bounds panic of indexing an empty string; badPath stands for the
diagnostic panic raised by Register for a pattern not starting with a
slash (and by ServeFiles for a pattern without the filepath suffix);
duplicateRoute stands for the trie rejecting a second handler bound at the
same pattern. -/
inductive RegErr where
  | indexOutOfRange
  | badPath (path : String)
  | duplicateRoute (path : String)
deriving DecidableEq, Repr

/-- Modelled from the spec (section 4.1): addRoute inserts a route and
rejects a duplicate registration at an already-bound pattern. -/
def addRoute (t : Trie) (pattern : String) (h : Nat) : Except RegErr Trie :=
  if (t.find? (fun rt => rt.1 = pattern)).isSome then
    .error (.duplicateRoute pattern)
  else
    .ok (t ++ [(pattern, h)])

/-! ## Router data model (router.go lines 18-63) -/

/-- Router structure, router.go lines 18-63.  Handlers, being opaque Go
function values, are identified by numeric ids; the trees map is an
association list from method name to that method's trie. -/
structure Router where
  trees : List (String × Trie)
  RedirectTrailingSlash : Bool
  RedirectFixedPath : Bool
  HandleMethodNotAllowed : Bool
  HandleOPTIONS : Bool
  NotFound : Option Nat
  MethodNotAllowed : Option Nat
  Methods : List String
deriving DecidableEq, Repr

/-- Request context, the slice of goa.Context the router touches (spec
section 6 dispatch surface): current method, current path, and the URL
path that feeds the redirect location. -/
structure Ctx where
  Method : String
  Path : String
  URLPath : String
deriving DecidableEq, Repr

/-- Observable result of one dispatch.  handled means a route handler was
invoked with the given params; redirect carries the status code and the
location string handed to the redirect collaborator; optionsReply means the
Allow header was set and dispatch returned without a handler;
methodNotAllowed means the Allow header was set and then the custom
handler (when present) was invoked, otherwise a 405 error was raised
through the error-signaling collaborator; notFound means the custom
not-found handler (when present) was invoked, otherwise nothing. -/
inductive Outcome where
  | handled (h : Nat) (ps : Params)
  | redirect (code : Nat) (location : String)
  | optionsReply (allow : String)
  | methodNotAllowed (allow : String) (custom : Option Nat)
  | notFound (custom : Option Nat)
deriving DecidableEq, Repr

/-- New, router.go lines 67-74: fresh router with every fallback behavior
enabled; the remaining fields take the Go zero values. -/
def New : Router :=
  { trees := []
    RedirectTrailingSlash := true
    RedirectFixedPath := true
    HandleMethodNotAllowed := true
    HandleOPTIONS := true
    NotFound := none
    MethodNotAllowed := none
    Methods := [] }

/-- Updates one method's trie in the trees association list, inserting the
binding when the method key is absent (the lazy root creation of
router.go lines 124-132). -/
def treesSet : List (String × Trie) → String → Trie → List (String × Trie)
  | [], m, t => [(m, t)]
  | (k, v) :: rest, m, t =>
    if k = m then (m, t) :: rest else (k, v) :: treesSet rest m t

/-! ## Registration (router.go lines 76-159) -/

/-- Register, router.go lines 119-143.  Indexing the pattern's first byte is
made explicit: the empty pattern faults with the out-of-bounds error before
the diagnostic check can fire.  A pattern not starting with a slash is
rejected with the diagnostic panic.  Otherwise the method root is looked up
(created lazily) and the route inserted.  When middlewares are present the
stored handler is the composition of the chain with the handler; the
composition itself is modelled functionally below (compose,
middlewareHandler), while the trie stores the handler id either way. -/
def Router.Register (r : Router) (method path : String) (h : Nat)
    (mwCount : Nat) : Except RegErr Router :=
  match path.toList with
  | [] => .error .indexOutOfRange
  | c0 :: _ =>
    if c0 = '/' then
      match addRoute ((r.trees.lookup method).getD []) path h with
      | .ok root2 => .ok { r with trees := treesSet r.trees method root2 }
      | .error e => .error e
    else
      .error (.badPath path)

/-- GET shortcut, router.go lines 77-79. -/
def Router.GET (r : Router) (path : String) (h : Nat) (mwCount : Nat) :
    Except RegErr Router :=
  r.Register "GET" path h mwCount

/-- HEAD shortcut, router.go lines 82-84. -/
def Router.HEAD (r : Router) (path : String) (h : Nat) (mwCount : Nat) :
    Except RegErr Router :=
  r.Register "HEAD" path h mwCount

/-- OPTIONS shortcut, router.go lines 87-89. -/
def Router.OPTIONS (r : Router) (path : String) (h : Nat) (mwCount : Nat) :
    Except RegErr Router :=
  r.Register "OPTIONS" path h mwCount

/-- POST shortcut, router.go lines 92-94. -/
def Router.POST (r : Router) (path : String) (h : Nat) (mwCount : Nat) :
    Except RegErr Router :=
  r.Register "POST" path h mwCount

/-- PUT shortcut, router.go lines 97-99. -/
def Router.PUT (r : Router) (path : String) (h : Nat) (mwCount : Nat) :
    Except RegErr Router :=
  r.Register "PUT" path h mwCount

/-- PATCH shortcut, router.go lines 102-104. -/
def Router.PATCH (r : Router) (path : String) (h : Nat) (mwCount : Nat) :
    Except RegErr Router :=
  r.Register "PATCH" path h mwCount

/-- DELETE shortcut, router.go lines 107-109. -/
def Router.DELETE (r : Router) (path : String) (h : Nat) (mwCount : Nat) :
    Except RegErr Router :=
  r.Register "DELETE" path h mwCount

/-- Handler id standing for the file-serving closure of ServeFiles. -/
def fileServerHandler : Nat := 1000

/-- ServeFiles, router.go lines 209-221: requires the pattern to end in the
ten-byte suffix slash-star-filepath, then registers a GET route whose
handler delegates to the file-serving collaborator. -/
def Router.ServeFiles (r : Router) (path : String) : Except RegErr Router :=
  if path.length < 10 ∨
      String.mk (path.toList.drop (path.length - 10)) ≠ "/*filepath" then
    .error (.badPath path)
  else
    r.GET path fileServerHandler 0

/-! ## The allowed-methods computation (router.go lines 161-197) -/

/-- Appends one method name to the comma-separated accumulator, starting
the list when the accumulator is still empty (router.go lines 168-173 and
184-190). -/
def allowedAppend (allow m : String) : String :=
  if allow.length = 0 then m else allow ++ ", " ++ m

/-- The loop body of allowed, router.go lines 162-192: for the server-wide
star path every registered method except OPTIONS is taken; for a specific
path a method other than the request method and OPTIONS is taken exactly
when its trie holds a handler at the path. -/
def allowedLoop (tr : List (String × Trie)) (path reqMethod : String) : String :=
  if path = "*" then
    tr.foldl
      (fun allow mt =>
        if mt.1 = "OPTIONS" then allow else allowedAppend allow mt.1) ""
  else
    tr.foldl
      (fun allow mt =>
        if mt.1 = reqMethod ∨ mt.1 = "OPTIONS" then allow
        else
          match (getValue mt.2 path).1 with
          | some _ => allowedAppend allow mt.1
          | none => allow) ""

/-- allowed, router.go lines 161-197: the method list with a final
OPTIONS appended whenever the accumulated string is non-empty. -/
def Router.allowed (r : Router) (path reqMethod : String) : String :=
  let allow := allowedLoop r.trees path reqMethod
  if allow.length > 0 then allow ++ ", OPTIONS" else allow

/-! ## Dispatch (router.go lines 224-292) -/

/-- The fallback block of Handle, router.go lines 267-291: the automatic
OPTIONS reply, the 405 path, and the 404 path. -/
def fallbackDispatch (r : Router) (path method : String) : Outcome :=
  if method = "OPTIONS" ∧ r.HandleOPTIONS then
    let allow := r.allowed path method
    if allow ≠ "" then .optionsReply allow else .notFound r.NotFound
  else
    if r.HandleMethodNotAllowed then
      let allow := r.allowed path method
      if allow ≠ "" then .methodNotAllowed allow r.MethodNotAllowed
      else .notFound r.NotFound
    else .notFound r.NotFound

/-- Handle with the router state threaded explicitly, router.go lines
224-292.  No statement of Handle writes to the router or its tries, so
every branch returns the incoming state unchanged.  In the trailing-slash
branch both the context path and the URL path are set to the toggled path,
so the redirect location is the toggled path; in the fixed-path branch only
the context path is updated while the URL path is left as it was, so the
location handed to the redirect collaborator is the original URL path. -/
def Router.HandleSt (r : Router) (c : Ctx) : Router × Outcome :=
  match r.trees.lookup c.Method with
  | some root =>
    match getValue root c.Path with
    | (some h, ps, _) => (r, .handled h ps)
    | (none, _, tsr) =>
      if c.Method ≠ "CONNECT" ∧ c.Path ≠ "/" then
        if tsr ∧ r.RedirectTrailingSlash then
          (r, .redirect (if c.Method = "GET" then 301 else 307)
            (toggleSlash c.Path))
        else
          if r.RedirectFixedPath then
            match findCaseInsensitivePath root (CleanPath c.Path)
                r.RedirectTrailingSlash with
            | some _ =>
              (r, .redirect (if c.Method = "GET" then 301 else 307) c.URLPath)
            | none => (r, fallbackDispatch r c.Path c.Method)
          else (r, fallbackDispatch r c.Path c.Method)
      else (r, fallbackDispatch r c.Path c.Method)
  | none => (r, fallbackDispatch r c.Path c.Method)

/-- Handle, router.go lines 224-292: the observable outcome of one
dispatch. -/
def Router.Handle (r : Router) (c : Ctx) : Outcome :=
  (r.HandleSt c).2

/-- Routes, router.go lines 296-301: the middleware adapter invokes Handle
and then always continues to the next link (the boolean records that the
continuation is invoked). -/
def Router.Routes (r : Router) (c : Ctx) : Outcome × Bool :=
  (r.Handle c, true)

/-! ## Middleware composer (router.go lines 134-159)

In Go a middleware mutates the shared context and may call its
continuation; here the context is threaded explicitly, so a middleware is a
function taking the current context and a continuation from contexts to
contexts, and a handler is a function from contexts to contexts.  The
composer is generic in the context type. -/

/-- The recursive dispatch loop of compose, router.go lines 148-156: past
the end of the list it returns (leaving the context as it is); otherwise it
runs the current middleware with the continuation that dispatches the rest
of the list. -/
def composeGo {α : Type} : List (α → (α → α) → α) → α → α
  | [], c => c
  | fn :: rest, c => fn c (fun c2 => composeGo rest c2)

/-- compose, router.go lines 145-159: fuses a middleware list into a single
handler running the dispatch loop from index zero.  Note the terminal
continuation is a no-op; the route handler is not part of the chain. -/
def compose {α : Type} (m : List (α → (α → α) → α)) : α → α :=
  fun c => composeGo m c

/-- The composed handler stored by Register when middlewares are present,
router.go lines 135-138: it runs the composed middleware chain on the
context and then, unconditionally, the route handler. -/
def middlewareHandler {α : Type} (m : List (α → (α → α) → α))
    (handler : α → α) : α → α :=
  fun c => handler (compose m c)

/-- Stated from the spec (sections 3 and 4.5): the nested continuation
chain m1 of (m2 of (... mn of h)), in which the terminal handler is the
innermost continuation.  This is the shape asserted by the specification,
written down for comparison with the source composition above. -/
def composeNested {α : Type} : List (α → (α → α) → α) → (α → α) → α → α
  | [], h => h
  | fn :: rest, h => fun c => fn c (composeNested rest h)

/-! ## Specification-side definitions

These definitions restate, in the words of the specification and of the
claims, the intended shape of the allowed-methods string and the condition
under which dispatch reaches its fallback block; the theorems below compare
them with the source-derived definitions. -/

/-- Comma-and-space join of a method list, as the spec words the Allow
header contents. -/
def joinComma : List String → String
  | [] => ""
  | [m] => m
  | m :: ms => m ++ ", " ++ joinComma ms

/-- The set of methods the claim says allowed must list: for the
server-wide star path every registered method except OPTIONS, otherwise
every registered method other than the request method and OPTIONS whose
trie holds a handler at the exact path. -/
def allowedMethodsSpec (r : Router) (path reqMethod : String) : List String :=
  if path = "*" then
    (r.trees.filter (fun mt => decide (mt.1 ≠ "OPTIONS"))).map (fun mt => mt.1)
  else
    (r.trees.filter (fun mt =>
      decide (mt.1 ≠ reqMethod ∧ mt.1 ≠ "OPTIONS" ∧
        ((getValue mt.2 path).1).isSome = true))).map (fun mt => mt.1)

/-- The allowed string as the claim words it: the comma-and-space joined
method set, with a final OPTIONS appended exactly when the set is
non-empty. -/
def allowedSpec (r : Router) (path reqMethod : String) : String :=
  let ms := allowedMethodsSpec r path reqMethod
  if ms = [] then "" else joinComma ms ++ ", OPTIONS"

/-- Reaching the fallback block of Handle: the method has no trie, or the
lookup found no handler and neither redirect branch fired.  This mirrors
the branch structure of HandleSt. -/
def reachesFallback (r : Router) (c : Ctx) : Bool :=
  match r.trees.lookup c.Method with
  | none => true
  | some root =>
    match getValue root c.Path with
    | (some _, _, _) => false
    | (none, _, tsr) =>
      if c.Method ≠ "CONNECT" ∧ c.Path ≠ "/" then
        if tsr ∧ r.RedirectTrailingSlash then false
        else
          if r.RedirectFixedPath then
            (findCaseInsensitivePath root (CleanPath c.Path)
              r.RedirectTrailingSlash).isNone
          else true
      else true

/-- The Methods field of the incoming router is preserved by a registration
result: trivially for a failed call, and on success the new router carries
the same Methods field. -/
def methodsPreserved (r : Router) : Except RegErr Router → Prop
  | .ok r2 => r2.Methods = r.Methods
  | .error _ => True

/-! ## Helper lemmas -/

theorem strAppend_assoc (a b c : String) : a ++ b ++ c = a ++ (b ++ c) := by
  cases a with
  | mk da =>
    cases b with
    | mk db =>
      cases c with
      | mk dc =>
        show String.mk (da ++ db ++ dc) = String.mk (da ++ (db ++ dc))
        rw [List.append_assoc]

theorem strLength_pos (m : String) (hm : m ≠ "") : m.length > 0 := by
  cases m with
  | mk data =>
    cases data with
    | nil => simp at hm
    | cons c cs => simp [String.length]

theorem strAppend_ne_empty_left (a b : String) (ha : a ≠ "") : a ++ b ≠ "" := by
  intro h
  have hl : (a ++ b).length = 0 := by rw [h]; rfl
  rw [String.length_append] at hl
  have := strLength_pos a ha
  omega

theorem strLength_eq_zero (m : String) (h : m.length = 0) : m = "" := by
  cases m with
  | mk d =>
    cases d with
    | nil => rfl
    | cons c cs => simp [String.length] at h

theorem foldl_allowedAppend_ne (ms : List String) (acc : String)
    (hacc : acc ≠ "") :
    ms.foldl allowedAppend acc =
      if ms = [] then acc else acc ++ ", " ++ joinComma ms := by
  induction ms generalizing acc with
  | nil => simp
  | cons m rest ih =>
    have hlen : ¬(acc.length = 0) := fun h => hacc (strLength_eq_zero acc h)
    have hstep : allowedAppend acc m = acc ++ ", " ++ m := by
      simp [allowedAppend, hlen]
    have hacc2 : acc ++ ", " ++ m ≠ "" :=
      strAppend_ne_empty_left _ _ (strAppend_ne_empty_left _ _ hacc)
    simp only [List.foldl_cons, hstep]
    rw [ih _ hacc2]
    cases rest with
    | nil => simp [joinComma]
    | cons m2 rest2 =>
      have h1 : ¬(m2 :: rest2 = ([] : List String)) := by simp
      have h2 : ¬(m :: m2 :: rest2 = ([] : List String)) := by simp
      rw [if_neg h1, if_neg h2]
      show acc ++ ", " ++ m ++ ", " ++ joinComma (m2 :: rest2) =
        acc ++ ", " ++ (m ++ ", " ++ joinComma (m2 :: rest2))
      apply String.ext
      simp [String.data_append]

theorem foldl_allowedAppend_join (ms : List String)
    (hms : ∀ m ∈ ms, m ≠ "") :
    ms.foldl allowedAppend "" = joinComma ms := by
  cases ms with
  | nil => rfl
  | cons m rest =>
    have hm : m ≠ "" := hms m (by simp)
    have hstep : allowedAppend "" m = m := rfl
    simp only [List.foldl_cons, hstep]
    rw [foldl_allowedAppend_ne rest m hm]
    cases rest with
    | nil => simp [joinComma]
    | cons m2 rest2 =>
      have h1 : ¬(m2 :: rest2 = ([] : List String)) := by simp
      rw [if_neg h1]
      rfl

theorem joinComma_ne_empty (ms : List String) (hne : ms ≠ [])
    (hms : ∀ m ∈ ms, m ≠ "") : joinComma ms ≠ "" := by
  cases ms with
  | nil => exact absurd rfl hne
  | cons m rest =>
    have hm : m ≠ "" := hms m (by simp)
    cases rest with
    | nil => exact hm
    | cons m2 rest2 =>
      show m ++ ", " ++ joinComma (m2 :: rest2) ≠ ""
      exact strAppend_ne_empty_left _ _ (strAppend_ne_empty_left _ _ hm)

theorem foldl_star_filter (tr : List (String × Trie)) (acc : String) :
    tr.foldl
      (fun allow mt =>
        if mt.1 = "OPTIONS" then allow else allowedAppend allow mt.1) acc =
    ((tr.filter (fun mt => decide (mt.1 ≠ "OPTIONS"))).map
      (fun mt => mt.1)).foldl allowedAppend acc := by
  induction tr generalizing acc with
  | nil => rfl
  | cons mt rest ih =>
    by_cases h : mt.1 = "OPTIONS"
    · simp [h, ih]
    · simp [h, ih]

theorem foldl_path_filter (tr : List (String × Trie)) (path reqMethod : String)
    (acc : String) :
    tr.foldl
      (fun allow mt =>
        if mt.1 = reqMethod ∨ mt.1 = "OPTIONS" then allow
        else
          match (getValue mt.2 path).1 with
          | some _ => allowedAppend allow mt.1
          | none => allow) acc =
    ((tr.filter (fun mt =>
        decide (mt.1 ≠ reqMethod ∧ mt.1 ≠ "OPTIONS" ∧
          ((getValue mt.2 path).1).isSome = true))).map
      (fun mt => mt.1)).foldl allowedAppend acc := by
  induction tr generalizing acc with
  | nil => rfl
  | cons mt rest ih =>
    by_cases h : mt.1 = reqMethod ∨ mt.1 = "OPTIONS"
    · have hp : ¬(mt.1 ≠ reqMethod ∧ mt.1 ≠ "OPTIONS" ∧
          ((getValue mt.2 path).1).isSome = true) := by
        rcases h with h | h
        · intro hc; exact hc.1 h
        · intro hc; exact hc.2.1 h
      simp [h, hp, ih]
    · push_neg at h
      cases hg : (getValue mt.2 path).1 with
      | none =>
        have hp : ¬(mt.1 ≠ reqMethod ∧ mt.1 ≠ "OPTIONS" ∧
            ((getValue mt.2 path).1).isSome = true) := by
          intro hc
          rw [hg] at hc
          simp at hc
        have hcond : ¬(mt.1 = reqMethod ∨ mt.1 = "OPTIONS") := by
          intro hc; rcases hc with hc | hc
          · exact h.1 hc
          · exact h.2 hc
        simp [hcond, hp, hg, ih]
      | some hh =>
        have hp : mt.1 ≠ reqMethod ∧ mt.1 ≠ "OPTIONS" ∧
            ((getValue mt.2 path).1).isSome = true := by
          refine ⟨h.1, h.2, ?_⟩
          rw [hg]; rfl
        have hcond : ¬(mt.1 = reqMethod ∨ mt.1 = "OPTIONS") := by
          intro hc; rcases hc with hc | hc
          · exact h.1 hc
          · exact h.2 hc
        simp [hcond, hp, hg, ih]

theorem allowedMethodsSpec_ne_empty (r : Router) (path reqMethod : String)
    (hmn : ∀ mt ∈ r.trees, mt.1 ≠ "") :
    ∀ m ∈ allowedMethodsSpec r path reqMethod, m ≠ "" := by
  intro m hm
  unfold allowedMethodsSpec at hm
  by_cases hstar : path = "*"
  · rw [if_pos hstar] at hm
    obtain ⟨mt, hmt, rfl⟩ := List.mem_map.mp hm
    exact hmn mt (List.mem_of_mem_filter hmt)
  · rw [if_neg hstar] at hm
    obtain ⟨mt, hmt, rfl⟩ := List.mem_map.mp hm
    exact hmn mt (List.mem_of_mem_filter hmt)

theorem allowed_eq_spec (r : Router) (path reqMethod : String)
    (hmn : ∀ mt ∈ r.trees, mt.1 ≠ "") :
    r.allowed path reqMethod = allowedSpec r path reqMethod := by
  have hmem := allowedMethodsSpec_ne_empty r path reqMethod hmn
  have hloop : allowedLoop r.trees path reqMethod =
      joinComma (allowedMethodsSpec r path reqMethod) := by
    unfold allowedLoop allowedMethodsSpec
    by_cases hstar : path = "*"
    · rw [if_pos hstar, if_pos hstar]
      rw [foldl_star_filter]
      apply foldl_allowedAppend_join
      intro m hm
      obtain ⟨mt, hmt, rfl⟩ := List.mem_map.mp hm
      exact hmn mt (List.mem_of_mem_filter hmt)
    · rw [if_neg hstar, if_neg hstar]
      rw [foldl_path_filter]
      apply foldl_allowedAppend_join
      intro m hm
      obtain ⟨mt, hmt, rfl⟩ := List.mem_map.mp hm
      exact hmn mt (List.mem_of_mem_filter hmt)
  unfold Router.allowed allowedSpec
  rw [hloop]
  by_cases hnil : allowedMethodsSpec r path reqMethod = []
  · rw [hnil]
    simp [joinComma]
  · rw [if_neg hnil]
    have hne := joinComma_ne_empty _ hnil hmem
    have hpos := strLength_pos _ hne
    rw [if_pos hpos]

theorem handleSt_fallback (r : Router) (c : Ctx)
    (hfb : reachesFallback r c = true) :
    r.HandleSt c = (r, fallbackDispatch r c.Path c.Method) := by
  unfold reachesFallback at hfb
  unfold Router.HandleSt
  split at hfb
  · next heq => simp only [heq]
  · next root heq =>
    simp only [heq]
    split at hfb
    · next hval fst snd heq2 => exact absurd hfb (by simp)
    · next fst tsr heq2 =>
      split at hfb
      · next hcp =>
        rw [if_pos hcp]
        split at hfb
        · next hts => exact absurd hfb (by simp)
        · next hts =>
          rw [if_neg hts]
          split at hfb
          · next hfp =>
            rw [if_pos hfp]
            cases hci : findCaseInsensitivePath root (CleanPath c.Path)
                r.RedirectTrailingSlash with
            | some fp => rw [hci] at hfb; simp at hfb
            | none => rfl
          · next hfp => rw [if_neg hfp]
      · next hcp => rw [if_neg hcp]

theorem handleSt_fst (r : Router) (c : Ctx) : (r.HandleSt c).1 = r := by
  unfold Router.HandleSt
  repeat' split
  all_goals rfl

theorem handleSt_tsr (r : Router) (c : Ctx) (root : Trie)
    (hlk : r.trees.lookup c.Method = some root)
    (hmiss : (getValue root c.Path).1 = none)
    (htsr : (getValue root c.Path).2.2 = true)
    (hconn : c.Method ≠ "CONNECT") (hroot : c.Path ≠ "/")
    (hrts : r.RedirectTrailingSlash = true) :
    r.HandleSt c =
      (r, .redirect (if c.Method = "GET" then 301 else 307)
        (toggleSlash c.Path)) := by
  unfold Router.HandleSt
  simp only [hlk]
  rcases hgv : getValue root c.Path with ⟨ho, ps, tsr⟩
  rw [hgv] at hmiss htsr
  simp only at hmiss htsr
  subst hmiss
  subst htsr
  simp only [if_pos (And.intro hconn hroot)]
  simp [hrts]

theorem handleSt_hit (r : Router) (c : Ctx) (root : Trie) (h : Nat)
    (ps : Params) (b : Bool)
    (hlk : r.trees.lookup c.Method = some root)
    (hgv : getValue root c.Path = (some h, ps, b)) :
    r.HandleSt c = (r, .handled h ps) := by
  unfold Router.HandleSt
  simp only [hlk, hgv]

theorem fallback_ne_handled (r : Router) (p m : String) (h : Nat)
    (ps : Params) : fallbackDispatch r p m ≠ .handled h ps := by
  unfold fallbackDispatch
  intro hcontra
  split_ifs at hcontra
  all_goals
    by_cases ha : r.allowed p m = "" <;> simp [ha] at hcontra

theorem splitOnSlash_ne_nil (l : List Char) : splitOnSlash l ≠ [] := by
  cases l with
  | nil => simp [splitOnSlash]
  | cons c rest =>
    unfold splitOnSlash
    cases h : splitOnSlash rest with
    | nil => simp
    | cons seg segs =>
      by_cases hc : c = '/' <;> simp [hc]

theorem matchSegs_slash_star (pat : List Char) (hp : pat.head? = some '/') :
    matchSegs (splitOnSlash pat) [['*']] = none := by
  cases pat with
  | nil => simp at hp
  | cons c rest =>
    simp at hp
    subst hp
    unfold splitOnSlash
    cases h : splitOnSlash rest with
    | nil => exact absurd h (splitOnSlash_ne_nil rest)
    | cons seg segs => rfl

theorem lookupRoute_star_none (t : Trie)
    (hall : ∀ rt ∈ t, rt.1.toList.head? = some '/') :
    lookupRoute t "*" = none := by
  unfold lookupRoute
  have h1 : t.find? (fun rt => decide (¬hasWildcard rt.1 = true ∧ rt.1 = "*")) =
      none := by
    rw [List.find?_eq_none]
    intro rt hrt
    have hhead := hall rt hrt
    simp only [decide_eq_true_eq]
    intro hc
    rw [hc.2] at hhead
    simp at hhead
  have h2 : t.findSome? (fun rt =>
      (matchSegs (splitOnSlash rt.1.toList) (splitOnSlash "*".toList)).map
        (fun prs => (rt.2, prs))) = none := by
    rw [List.findSome?_eq_none_iff]
    intro rt hrt
    have : matchSegs (splitOnSlash rt.1.toList) [['*']] = none :=
      matchSegs_slash_star rt.1.toList (hall rt hrt)
    have hsp : splitOnSlash "*".toList = [['*']] := rfl
    rw [hsp, this]
    rfl
  rw [h1, h2]

theorem getValue_star_fst (t : Trie)
    (hall : ∀ rt ∈ t, rt.1.toList.head? = some '/') :
    (getValue t "*").1 = none := by
  unfold getValue
  rw [lookupRoute_star_none t hall]

theorem handle_miss_ne_handled (r : Router) (c : Ctx)
    (hmiss : ∀ root, r.trees.lookup c.Method = some root →
      (getValue root c.Path).1 = none)
    (h : Nat) (ps : Params) : r.Handle c ≠ .handled h ps := by
  unfold Router.Handle Router.HandleSt
  cases hlk : r.trees.lookup c.Method with
  | none =>
    simp only
    exact fallback_ne_handled r c.Path c.Method h ps
  | some root =>
    simp only
    have hm := hmiss root hlk
    rcases hgv : getValue root c.Path with ⟨ho, ps2, tsr⟩
    rw [hgv] at hm
    simp only at hm
    subst hm
    repeat' split
    all_goals simp_all [fallback_ne_handled]

/-! ## Claim theorems -/

theorem composeGo_eq_nested {α : Type} (m : List (α → (α → α) → α)) (c : α) :
    composeGo m c = composeNested m (fun x => x) c := by
  induction m generalizing c with
  | nil => rfl
  | cons fn rest ih =>
    unfold composeGo composeNested
    congr 1
    funext c2
    exact ih c2

/-- Middleware over trace contexts that appends marker 1 and never invokes
its continuation. -/
def mwStop : List Nat → (List Nat → List Nat) → List Nat :=
  fun c _ => c ++ [1]

/-- Terminal handler over trace contexts appending marker 99. -/
def hTerm : List Nat → List Nat := fun c => c ++ [99]

/-- Claim C1, counterexample.  With the single middleware mwStop, which
never invokes its continuation, the callable installed by registration
still runs the terminal handler (marker 99 appears in the trace), whereas
the nested continuation chain claimed by the spec stops after mwStop; the
two callables therefore differ. -/
theorem C1_counterexample :
    middlewareHandler [mwStop] hTerm [] = [1, 99] ∧
    composeNested [mwStop] hTerm [] = [1] ∧
    middlewareHandler [mwStop] hTerm [] ≠ composeNested [mwStop] hTerm [] ∧
    99 ∈ middlewareHandler [mwStop] hTerm [] :=
  ⟨rfl, rfl, by decide, by decide⟩

/-- Claim C1, amended.  Registration installs a single callable equivalent
to the nested chain m1 of (m2 of (... mn of noop)) — the middleware chain
with a no-op terminal continuation — followed unconditionally by the
terminal handler h.  A middleware that never invokes its continuation
prevents the middleware after it (and nothing else) from running; h always
runs, after the whole middleware chain has unwound. -/
theorem C1_compose_then_handler {α : Type} (m : List (α → (α → α) → α))
    (handler : α → α) (c : α) :
    middlewareHandler m handler c =
      handler (composeNested m (fun x => x) c) := by
  unfold middlewareHandler compose
  rw [composeGo_eq_nested]

/-- Router with only GET /path registered, all flags at their defaults. -/
def rC2 : Router := { New with trees := [("GET", [("/path", 1)])] }

/-- Context for a GET request whose path differs from the route only by
letter case. -/
def cC2 : Ctx := ⟨"GET", "/PATH", "/PATH"⟩

/-- Context for the GET request from the claim, with superfluous path
elements. -/
def cC2b : Ctx := ⟨"GET", "/..//path", "/..//path"⟩

/-- Claim C2, code-bug evaluation.  With only GET /path registered and the
fixed-path option enabled, the case-insensitive search over the cleaned
path succeeds with the corrected path /path in both cases, yet dispatch
redirects to the original URL path (/PATH respectively /..//path), not to
the corrected path: the fixed-path branch of Handle updates the context
path but never the URL path whose string it passes to the redirect
collaborator (router.go line 259 versus lines 242-243). -/
theorem C2_fixed_path_eval :
    findCaseInsensitivePath [("/path", 1)] (CleanPath "/PATH") true =
      some "/path" ∧
    rC2.Handle cC2 = .redirect 301 "/PATH" ∧
    findCaseInsensitivePath [("/path", 1)] (CleanPath "/..//path") true =
      some "/path" ∧
    rC2.Handle cC2b = .redirect 301 "/..//path" ∧
    ("/PATH" : String) ≠ "/path" ∧ ("/..//path" : String) ≠ "/path" :=
  ⟨rfl, rfl, rfl, rfl, by decide, by decide⟩

/-- Claim C3.  When lookup for the request method finds no handler, the
trie reports a trailing-slash opportunity, the method is not CONNECT, the
path is not the root slash, and RedirectTrailingSlash is enabled, dispatch
redirects to the path with the final slash toggled (the final slash
removed when the path is longer than one byte and ends in a slash,
otherwise a slash appended), with status 301 for GET and 307 for every
other method. -/
theorem C3_trailing_slash_redirect (r : Router) (c : Ctx) (root : Trie)
    (hlk : r.trees.lookup c.Method = some root)
    (hmiss : (getValue root c.Path).1 = none)
    (htsr : (getValue root c.Path).2.2 = true)
    (hconn : c.Method ≠ "CONNECT") (hroot : c.Path ≠ "/")
    (hrts : r.RedirectTrailingSlash = true) :
    r.Handle c =
      .redirect (if c.Method = "GET" then 301 else 307)
        (toggleSlash c.Path) ∧
    toggleSlash c.Path =
      (if c.Path.length > 1 ∧ c.Path.toList.getLast? = some '/'
       then String.mk c.Path.toList.dropLast else c.Path ++ "/") := by
  constructor
  · unfold Router.Handle
    rw [handleSt_tsr r c root hlk hmiss htsr hconn hroot hrts]
  · rfl

/-- Router with only PUT /path/ registered, all flags at their defaults. -/
def rC3w : Router := { New with trees := [("PUT", [("/path/", 2)])] }

/-- Context for the PUT request of the claim's example. -/
def cC3w : Ctx := ⟨"PUT", "/path", "/path"⟩

/-- Claim C3, witness: with only PUT /path/ registered, dispatching
PUT /path redirects with status 307 to /path/. -/
theorem C3_witness :
    rC3w.Handle cC3w =
      .redirect (if cC3w.Method = "GET" then 301 else 307)
        (toggleSlash cC3w.Path) ∧
    toggleSlash cC3w.Path = "/path/" ∧
    (if cC3w.Method = "GET" then 301 else 307) = 307 :=
  ⟨(C3_trailing_slash_redirect rC3w cC3w [("/path/", 2)] rfl rfl rfl
      (by decide) (by decide) rfl).1,
   by decide, by decide⟩

/-- Router with OPTIONS /x and GET /x/ registered, flags at their
defaults. -/
def rC4 : Router :=
  { New with trees := [("OPTIONS", [("/x", 5)]), ("GET", [("/x/", 6)])] }

/-- Context for an OPTIONS request on /x/. -/
def cC4 : Ctx := ⟨"OPTIONS", "/x/", "/x/"⟩

/-- Claim C4, counterexample.  The request is OPTIONS with HandleOPTIONS
enabled, no exact OPTIONS route matches /x/, and the allowed-methods set
for /x/ is non-empty — every hypothesis of the claim holds — yet dispatch
issues a trailing-slash redirect (the OPTIONS trie holds /x) instead of
setting the Allow header and returning: the redirect steps of dispatch
preempt the automatic OPTIONS reply. -/
theorem C4_counterexample :
    cC4.Method = "OPTIONS" ∧
    rC4.HandleOPTIONS = true ∧
    (getValue [("/x", 5)] cC4.Path).1 = none ∧
    rC4.allowed cC4.Path cC4.Method = "GET, OPTIONS" ∧
    rC4.Handle cC4 = .redirect 307 "/x" ∧
    (∀ s : String, rC4.Handle cC4 ≠ .optionsReply s) := by
  refine ⟨rfl, rfl, rfl, rfl, rfl, ?_⟩
  intro s hcontra
  have he : rC4.Handle cC4 = .redirect 307 "/x" := rfl
  rw [he] at hcontra
  exact Outcome.noConfusion hcontra

/-- Claim C4, amended.  For every OPTIONS request with HandleOPTIONS
enabled for which no exact OPTIONS route matched in step 1 and no redirect
was issued (dispatch reaches its fallback block), if the allowed-methods
set for the path is non-empty, dispatch sets it as the Allow header and
returns without invoking any handler; a registered OPTIONS handler for the
exact path is dispatched in step 1 instead; and no handler is ever invoked
for the path star, since every registered pattern starts with a slash. -/
theorem C4_options_reply (r : Router) (c : Ctx) :
    (reachesFallback r c = true → c.Method = "OPTIONS" →
      r.HandleOPTIONS = true → r.allowed c.Path c.Method ≠ "" →
      r.Handle c = .optionsReply (r.allowed c.Path c.Method)) ∧
    (∀ root h ps b, r.trees.lookup c.Method = some root →
      getValue root c.Path = (some h, ps, b) →
      r.Handle c = .handled h ps) ∧
    (c.Path = "*" →
      (∀ root, r.trees.lookup c.Method = some root →
        ∀ rt ∈ root, rt.1.toList.head? = some '/') →
      ∀ h ps, r.Handle c ≠ .handled h ps) := by
  refine ⟨?_, ?_, ?_⟩
  · intro hfb hm hopt hall
    unfold Router.Handle
    rw [handleSt_fallback r c hfb]
    unfold fallbackDispatch
    rw [if_pos (And.intro hm hopt), if_pos hall]
  · intro root h ps b hlk hgv
    unfold Router.Handle
    rw [handleSt_hit r c root h ps b hlk hgv]
  · intro hstar hall h ps
    apply handle_miss_ne_handled
    intro root hlk
    rw [hstar]
    exact getValue_star_fst root (hall root hlk)

/-- Router with only POST /path registered, flags at their defaults. -/
def rC4w : Router := { New with trees := [("POST", [("/path", 3)])] }

/-- Context for an OPTIONS request on /path. -/
def cC4w : Ctx := ⟨"OPTIONS", "/path", "/path"⟩

/-- Claim C4, witness: with only POST /path registered, OPTIONS /path is
answered by setting the Allow header to POST, OPTIONS. -/
theorem C4_witness :
    rC4w.Handle cC4w = .optionsReply (rC4w.allowed cC4w.Path cC4w.Method) ∧
    rC4w.allowed cC4w.Path cC4w.Method = "POST, OPTIONS" :=
  ⟨(C4_options_reply rC4w cC4w).1 rfl rfl rfl (by decide), rfl⟩

/-- Claim C5.  When dispatch reaches its fallback block (no route, no
redirect), the automatic OPTIONS reply does not apply, method-not-allowed
handling is enabled, and the allowed-methods set is non-empty, dispatch
sets the Allow header and then invokes the custom method-not-allowed
handler when one is set, otherwise raises a 405 through the
error-signaling collaborator (the methodNotAllowed outcome carries the
optional custom handler); the not-found handler is not invoked. -/
theorem C5_method_not_allowed (r : Router) (c : Ctx)
    (hfb : reachesFallback r c = true)
    (hnopt : ¬(c.Method = "OPTIONS" ∧ r.HandleOPTIONS = true))
    (hmna : r.HandleMethodNotAllowed = true)
    (hall : r.allowed c.Path c.Method ≠ "") :
    r.Handle c =
      .methodNotAllowed (r.allowed c.Path c.Method) r.MethodNotAllowed ∧
    (∀ x, r.Handle c ≠ .notFound x) := by
  have hmain : r.Handle c =
      .methodNotAllowed (r.allowed c.Path c.Method) r.MethodNotAllowed := by
    unfold Router.Handle
    rw [handleSt_fallback r c hfb]
    unfold fallbackDispatch
    rw [if_neg hnopt, if_pos hmna, if_pos hall]
  refine ⟨hmain, ?_⟩
  intro x hcontra
  rw [hmain] at hcontra
  exact Outcome.noConfusion hcontra

/-- Router with only POST /path registered, for the 405 witness. -/
def rC5w : Router := { New with trees := [("POST", [("/path", 3)])] }

/-- Context for a GET request on /path, whose only route is POST. -/
def cC5w : Ctx := ⟨"GET", "/path", "/path"⟩

/-- Claim C5, witness: with only POST /path registered and no custom
handler, GET /path yields the 405 outcome with Allow POST, OPTIONS. -/
theorem C5_witness :
    rC5w.Handle cC5w =
      .methodNotAllowed (rC5w.allowed cC5w.Path cC5w.Method)
        rC5w.MethodNotAllowed ∧
    rC5w.allowed cC5w.Path cC5w.Method = "POST, OPTIONS" ∧
    rC5w.MethodNotAllowed = none :=
  ⟨(C5_method_not_allowed rC5w cC5w rfl (by decide) rfl (by decide)).1,
   rfl, rfl⟩

/-- Router whose trees map holds the empty-string method next to GET,
reachable through Register with an empty method argument. -/
def rC6 : Router :=
  { New with trees := [("", [("/p", 7)]), ("GET", [("/p", 8)])] }

/-- Claim C6, counterexample.  With the empty-string method registered,
the set of registered methods other than the request method and OPTIONS
whose trie holds a handler at /p is the two-element set holding the empty
name and GET, so the claimed output is the comma-joined pair with OPTIONS
appended; the code, whose accumulator treats an empty string as the
not-yet-started list, silently drops the empty method name. -/
theorem C6_counterexample :
    rC6.allowed "*" "POST" = "GET, OPTIONS" ∧
    allowedMethodsSpec rC6 "*" "POST" = ["", "GET"] ∧
    allowedSpec rC6 "*" "POST" = ", GET, OPTIONS" ∧
    rC6.allowed "*" "POST" ≠ allowedSpec rC6 "*" "POST" := by
  refine ⟨rfl, by decide, by decide, by decide⟩

/-- Claim C6, amended.  Provided every registered method name is
non-empty, allowed returns exactly the claimed string: for the star path
the comma-joined list of every registered method except OPTIONS, for any
other path the comma-joined list of the registered methods other than the
request method and OPTIONS whose trie holds a handler at the exact path;
a non-empty set is always terminated with OPTIONS and the empty set gives
the empty string. -/
theorem C6_allowed_spec (r : Router) (path reqMethod : String)
    (hmn : ∀ mt ∈ r.trees, mt.1 ≠ "") :
    r.allowed path reqMethod = allowedSpec r path reqMethod ∧
    (allowedMethodsSpec r path reqMethod = [] →
      r.allowed path reqMethod = "") ∧
    (allowedMethodsSpec r path reqMethod ≠ [] →
      r.allowed path reqMethod =
        joinComma (allowedMethodsSpec r path reqMethod) ++ ", OPTIONS") := by
  have h := allowed_eq_spec r path reqMethod hmn
  refine ⟨h, ?_, ?_⟩
  · intro hnil
    rw [h]
    simp [allowedSpec, hnil]
  · intro hne
    rw [h]
    simp [allowedSpec, hne]

/-- Claim C6, witness: with only POST /path registered, the allowed string
for GET /path is exactly POST, OPTIONS, matching the claimed shape. -/
theorem C6_witness :
    rC5w.allowed "/path" "GET" = allowedSpec rC5w "/path" "GET" ∧
    rC5w.allowed "/path" "GET" = "POST, OPTIONS" :=
  ⟨(C6_allowed_spec rC5w "/path" "GET" (by decide)).1, rfl⟩

/-- Claim C7.  For every pattern whose first byte is not a slash, Register
fails with the diagnostic rejection — returning the error and hence
producing no new router state: no method root is created and no route is
inserted — and every per-verb shortcut, being Register with a fixed
method string, fails the same way. -/
theorem C7_register_rejects_bad_pattern (r : Router) (method path : String)
    (h k : Nat) (c0 : Char) (cs : List Char)
    (hp : path.toList = c0 :: cs) (hc : c0 ≠ '/') :
    r.Register method path h k = .error (.badPath path) ∧
    r.GET path h k = .error (.badPath path) ∧
    r.HEAD path h k = .error (.badPath path) ∧
    r.OPTIONS path h k = .error (.badPath path) ∧
    r.POST path h k = .error (.badPath path) ∧
    r.PUT path h k = .error (.badPath path) ∧
    r.PATCH path h k = .error (.badPath path) ∧
    r.DELETE path h k = .error (.badPath path) := by
  have hreg : ∀ m : String, r.Register m path h k = .error (.badPath path) := by
    intro m
    unfold Router.Register
    rw [hp]
    simp [hc]
  exact ⟨hreg method, hreg "GET", hreg "HEAD", hreg "OPTIONS", hreg "POST",
    hreg "PUT", hreg "PATCH", hreg "DELETE"⟩

/-- Claim C7, witness: registering the pattern abc fails with the
diagnostic rejection, through Register and through a verb shortcut. -/
theorem C7_witness :
    New.Register "GET" "abc" 1 0 = .error (.badPath "abc") ∧
    New.POST "abc" 1 0 = .error (.badPath "abc") :=
  ⟨(C7_register_rejects_bad_pattern New "GET" "abc" 1 0 'a' ['b', 'c']
      rfl (by decide)).1,
   (C7_register_rejects_bad_pattern New "GET" "abc" 1 0 'a' ['b', 'c']
      rfl (by decide)).2.2.2.2.1⟩

/-- Claim C8.  Dispatch is a pure function of the router state, the
method, and the path, and mutates no routing structure: the threaded
router state comes back unchanged from every dispatch, and dispatching
the same context again against the state returned by the first dispatch
yields the identical outcome — identical handler selection and identical
params both times. -/
theorem C8_dispatch_idempotent (r : Router) (c : Ctx) :
    (r.HandleSt c).1 = r ∧
    ((r.HandleSt c).1).HandleSt c = r.HandleSt c ∧
    ((r.HandleSt c).1).Handle c = r.Handle c := by
  have h1 := handleSt_fst r c
  refine ⟨h1, ?_, ?_⟩
  · rw [h1]
  · rw [h1]

theorem strToList_nil (p : String) (hp : p.toList = []) : p = "" := by
  cases p with
  | mk d =>
    cases d with
    | nil => rfl
    | cons c cs => exact absurd hp (by simp [String.toList])

theorem addRoute_not_badPath (t : Trie) (p : String) (h : Nat) (e : String) :
    addRoute t p h ≠ .error (.badPath e) := by
  unfold addRoute
  split
  all_goals simp

theorem register_reduce (r : Router) (method path : String) (h k : Nat)
    (c0 : Char) (cs : List Char) (hp : path.toList = c0 :: cs) :
    r.Register method path h k =
      (if c0 = '/' then
        match addRoute ((r.trees.lookup method).getD []) path h with
        | .ok root2 => .ok { r with trees := treesSet r.trees method root2 }
        | .error e => .error e
      else .error (.badPath path)) := by
  unfold Router.Register
  rw [hp]

theorem register_first_byte (r : Router) (method path : String) (h k : Nat)
    (c0 : Char) (cs : List Char) (hp : path.toList = c0 :: cs) :
    (c0 ≠ '/' → r.Register method path h k = .error (.badPath path)) ∧
    (c0 = '/' → ∀ e, r.Register method path h k ≠ .error (.badPath e)) := by
  constructor
  · intro hc
    rw [register_reduce r method path h k c0 cs hp, if_neg hc]
  · intro hc e
    rw [register_reduce r method path h k c0 cs hp, if_pos hc]
    cases har : addRoute ((r.trees.lookup method).getD []) path h with
    | ok t2 => simp
    | error er =>
      intro hcontra
      simp at hcontra
      rw [hcontra] at har
      exact addRoute_not_badPath _ _ _ _ har

/-- Claim C9.  The leading-slash guard reads the pattern's first byte
unconditionally: the empty pattern faults with the out-of-bounds index
error itself and never reaches the diagnostic rejection, while for every
non-empty pattern the access is in bounds and the diagnostic rejection
fires exactly when the first byte is not a slash. -/
theorem C9_empty_pattern_fault (r : Router) (method : String) (h k : Nat) :
    r.Register method "" h k = .error .indexOutOfRange ∧
    (∀ e, r.Register method "" h k ≠ .error (.badPath e)) ∧
    (∀ path : String, path ≠ "" →
      ((∃ e, r.Register method path h k = .error (.badPath e)) ↔
        path.toList.head? ≠ some '/')) := by
  have h1 : r.Register method "" h k = .error .indexOutOfRange := rfl
  refine ⟨h1, ?_, ?_⟩
  · intro e hcontra
    rw [h1] at hcontra
    simp at hcontra
  · intro path hne
    cases hp : path.toList with
    | nil => exact absurd (strToList_nil path hp) hne
    | cons c0 cs =>
      have hg := register_first_byte r method path h k c0 cs hp
      constructor
      · rintro ⟨e, he⟩
        simp only [List.head?, ne_eq, Option.some.injEq]
        intro hcontra
        exact hg.2 hcontra e he
      · intro hhead
        have hc : c0 ≠ '/' := by
          simp at hhead
          exact hhead
        exact ⟨path, hg.1 hc⟩

/-- Claim C9, witness: registration with the empty pattern yields the
index fault and not the diagnostic; a pattern starting with a letter
yields the diagnostic; a well-formed pattern yields no diagnostic. -/
theorem C9_witness :
    New.Register "GET" "" 1 0 = .error .indexOutOfRange ∧
    (∃ e, New.Register "GET" "x" 1 0 = .error (.badPath e)) ∧
    ¬(∃ e, New.Register "GET" "/p" 1 0 = .error (.badPath e)) :=
  ⟨(C9_empty_pattern_fault New "GET" 1 0).1,
   ((C9_empty_pattern_fault New "GET" 1 0).2.2 "x" (by decide)).mpr
     (by decide),
   fun hx =>
     ((C9_empty_pattern_fault New "GET" 1 0).2.2 "/p" (by decide)).mp hx
       (by decide)⟩

theorem register_methods (r : Router) (m p : String) (h k : Nat) :
    methodsPreserved r (r.Register m p h k) := by
  cases hp : p.toList with
  | nil =>
    have hred : r.Register m p h k = .error .indexOutOfRange := by
      unfold Router.Register
      rw [hp]
    rw [hred]
    trivial
  | cons c0 cs =>
    rw [register_reduce r m p h k c0 cs hp]
    by_cases hc : c0 = '/'
    · rw [if_pos hc]
      cases har : addRoute ((r.trees.lookup m).getD []) p h with
      | ok t2 => exact rfl
      | error e2 => trivial
    · rw [if_neg hc]
      trivial

theorem serveFiles_methods (r : Router) (p : String) :
    methodsPreserved r (r.ServeFiles p) := by
  unfold Router.ServeFiles
  split
  · trivial
  · exact register_methods r "GET" p fileServerHandler 0

theorem handle_methods (r : Router) (ms : List String) (c : Ctx) :
    ({ r with Methods := ms } : Router).Handle c = r.Handle c := by
  cases r with
  | mk tr rts rfp hmna hopt nf mna M =>
    unfold Router.Handle Router.HandleSt
    simp only []
    cases hlk : tr.lookup c.Method with
    | none => rfl
    | some root =>
      simp only [hlk]
      rcases hgv : getValue root c.Path with ⟨ho, ps, tsr⟩
      cases ho with
      | some h => simp only [hgv]
      | none =>
        simp only [hgv]
        by_cases hcp : c.Method ≠ "CONNECT" ∧ c.Path ≠ "/"
        · simp only [if_pos hcp]
          by_cases hts : tsr = true ∧ rts = true
          · simp only [if_pos hts]
          · simp only [if_neg hts]
            by_cases hfp : rfp = true
            · simp only [if_pos hfp]
              cases hci : findCaseInsensitivePath root (CleanPath c.Path)
                  rts with
              | some fp => simp only [hci]
              | none => rfl
            · simp only [if_neg hfp]
              rfl
        · simp only [if_neg hcp]
          rfl

/-- Claim C10.  No router operation reads or writes the exported Methods
field: dispatch, the allowed computation and the middleware adapter give
the same result when Methods is replaced by any value (they depend only
on the other fields, the Allow header being computed solely from the
trees mapping), New leaves Methods at its zero value, and every
registration entry point returns a router with the Methods field of its
receiver. -/
theorem C10_methods_frame (r : Router) (ms : List String) (c : Ctx)
    (p m2 : String) (h k : Nat) :
    ({ r with Methods := ms } : Router).Handle c = r.Handle c ∧
    ({ r with Methods := ms } : Router).allowed p m2 = r.allowed p m2 ∧
    ({ r with Methods := ms } : Router).Routes c = r.Routes c ∧
    New.Methods = [] ∧
    methodsPreserved r (r.Register m2 p h k) ∧
    methodsPreserved r (r.GET p h k) ∧
    methodsPreserved r (r.HEAD p h k) ∧
    methodsPreserved r (r.OPTIONS p h k) ∧
    methodsPreserved r (r.POST p h k) ∧
    methodsPreserved r (r.PUT p h k) ∧
    methodsPreserved r (r.PATCH p h k) ∧
    methodsPreserved r (r.DELETE p h k) ∧
    methodsPreserved r (r.ServeFiles p) :=
  ⟨handle_methods r ms c, rfl,
   by unfold Router.Routes; rw [handle_methods r ms c], rfl,
   register_methods r m2 p h k,
   register_methods r "GET" p h k,
   register_methods r "HEAD" p h k,
   register_methods r "OPTIONS" p h k,
   register_methods r "POST" p h k,
   register_methods r "PUT" p h k,
   register_methods r "PATCH" p h k,
   register_methods r "DELETE" p h k,
   serveFiles_methods r p⟩

end GoaRouter
